import Mathlib

/-
Verification of the overflow-demonstration reference model described by the
repository's documentation. The repository's only source file is a notebook
driving an external numeric library, so the data model below (fixed-width
unsigned integers with an overflow policy, and sparse coordinate matrices
over them) is modelled from the specification text, faithful to its words.
-/

set_option autoImplicit false
set_option maxRecDepth 8000
set_option linter.unusedVariables false

namespace OverflowDemo

/-- Modelled from the spec: `OverflowPolicy` (section 2) — selects between
silently wrapping on overflow and signalling an error; the underlying
numeric library's arithmetic error mode is not part of this repository's
source, so the policy is modelled from the specification. -/
inductive OverflowPolicy where
  | wrap
  | signal
deriving DecidableEq

/-- Modelled from the spec: the `OverflowError` payload (section 7) — the
offending position (absent for a bare scalar operation), the true
mathematical value, and the representable maximum. -/
structure OverflowError where
  position : Option (Nat × Nat)
  trueValue : Nat
  maxValue : Nat
deriving DecidableEq

/-- Modelled from the spec: `FixedWidthInteger` (section 3) — an unsigned
value together with its declared bit width and overflow policy. -/
structure FixedWidthInteger where
  value : Nat
  bitWidth : Nat
  policy : OverflowPolicy
deriving DecidableEq

namespace FixedWidthInteger

/-- Modelled from the spec: literal construction of a `FixedWidthInteger`
(section 3): the stored value respects the invariant at the declared width,
wrapping or signalling when the literal does not fit. -/
def ofValue (v w : Nat) (p : OverflowPolicy) : Except OverflowError FixedWidthInteger :=
  if v ≤ 2 ^ w - 1 then
    .ok ⟨v, w, p⟩
  else
    match p with
    | .wrap => .ok ⟨v % 2 ^ w, w, p⟩
    | .signal => .error ⟨none, v, 2 ^ w - 1⟩

/-- Modelled from the spec: `add(a,b)` (section 4.1) — the true sum is taken;
if it exceeds the representable maximum, the "wrap" policy reduces it modulo
`2^bitWidth` while the "signal" policy fails with the true sum and the
representable maximum. -/
def add (a b : FixedWidthInteger) : Except OverflowError FixedWidthInteger :=
  let s := a.value + b.value
  if s ≤ 2 ^ a.bitWidth - 1 then
    .ok ⟨s, a.bitWidth, a.policy⟩
  else
    match a.policy with
    | .wrap => .ok ⟨s % 2 ^ a.bitWidth, a.bitWidth, a.policy⟩
    | .signal => .error ⟨none, s, 2 ^ a.bitWidth - 1⟩

/-- Modelled from the spec: `multiply(a, scalar)` (section 4.1) — same
contract as `add`, using the true product. -/
def multiply (a : FixedWidthInteger) (k : Nat) : Except OverflowError FixedWidthInteger :=
  let s := a.value * k
  if s ≤ 2 ^ a.bitWidth - 1 then
    .ok ⟨s, a.bitWidth, a.policy⟩
  else
    match a.policy with
    | .wrap => .ok ⟨s % 2 ^ a.bitWidth, a.bitWidth, a.policy⟩
    | .signal => .error ⟨none, s, 2 ^ a.bitWidth - 1⟩

/-- Modelled from the spec: `cast(a, newBitWidth)` (section 4.1) —
widening copies the numeric value verbatim; narrowing follows the same
overflow policy as arithmetic when the value does not fit. -/
def cast (a : FixedWidthInteger) (w : Nat) : Except OverflowError FixedWidthInteger :=
  if a.value ≤ 2 ^ w - 1 then
    .ok ⟨a.value, w, a.policy⟩
  else
    match a.policy with
    | .wrap => .ok ⟨a.value % 2 ^ w, w, a.policy⟩
    | .signal => .error ⟨none, a.value, 2 ^ w - 1⟩

end FixedWidthInteger

/-- Sparse entries: an association list from (row, col) pairs to stored
natural values; keys are unique in any matrix built by the operations below. -/
abbrev Entries := List ((Nat × Nat) × Nat)

/-- Look up the stored value at a position, `0` when the position is
unoccupied. -/
def lookupEntry (es : Entries) (q : Nat × Nat) : Nat :=
  match es with
  | [] => 0
  | e :: rest => if e.1 = q then e.2 else lookupEntry rest q

/-- Replace (or append) the entry at a position. -/
def setEntry (es : Entries) (q : Nat × Nat) (v : Nat) : Entries :=
  match es with
  | [] => [(q, v)]
  | e :: rest => if e.1 = q then (q, v) :: rest else e :: setEntry rest q v

/-- Modelled from the spec: `Matrix` (section 3) — a shape, a declared
element width, the overflow policy in force, and the occupied entries. -/
structure Matrix where
  rows : Nat
  cols : Nat
  elementWidth : Nat
  policy : OverflowPolicy
  entries : Entries
deriving DecidableEq

/-- Modelled from the spec: matrix-level errors (section 7) — an overflow
carrying its position, or a shape/width mismatch between operands. -/
inductive MatrixError where
  | overflow (e : OverflowError)
  | shapeMismatch (w1 w2 : Nat) (s1 s2 : Nat × Nat)
deriving DecidableEq

/-- Accumulate coordinate triplets into an entry list by applying
`FixedWidthInteger.add` sequentially at the given width and policy; a
signalled overflow is tagged with the offending position. -/
def accumTriplets (w : Nat) (pol : OverflowPolicy) (es : Entries) :
    List (Nat × Nat × Nat) → Except OverflowError Entries
  | [] => .ok es
  | (r, c, v) :: rest =>
    match FixedWidthInteger.add ⟨lookupEntry es (r, c), w, pol⟩ ⟨v, w, pol⟩ with
    | .ok x => accumTriplets w pol (setEntry es (r, c) x.value) rest
    | .error e => .error { e with position := some (r, c) }

/-- Modelled from the spec: `fromTriplets` (section 4.2) — builds a matrix
by applying `FixedWidthInteger.add` sequentially for every triplet sharing
the same (row, col), failing or wrapping per policy exactly as `add` does. -/
def Matrix.fromTriplets (ts : List (Nat × Nat × Nat)) (shape : Nat × Nat)
    (w : Nat) (pol : OverflowPolicy) : Except OverflowError Matrix :=
  match accumTriplets w pol [] ts with
  | .ok es => .ok ⟨shape.1, shape.2, w, pol, es⟩
  | .error e => .error e

/-- The union of the occupied positions of two entry lists, first operand's
keys first. -/
def unionKeys (es1 es2 : Entries) : List (Nat × Nat) :=
  es1.map Prod.fst ++ (es2.map Prod.fst).filter (fun q => decide (q ∉ es1.map Prod.fst))

/-- Elementwise sum of two entry lists over the given list of positions,
each sum obeying the `add` contract; a signalled overflow is tagged with
the offending position. -/
def addEntries (w : Nat) (pol : OverflowPolicy) (es1 es2 : Entries) :
    List (Nat × Nat) → Except MatrixError Entries
  | [] => .ok []
  | q :: rest =>
    match FixedWidthInteger.add ⟨lookupEntry es1 q, w, pol⟩ ⟨lookupEntry es2 q, w, pol⟩ with
    | .ok x =>
      match addEntries w pol es1 es2 rest with
      | .ok es => .ok ((q, x.value) :: es)
      | .error e => .error e
    | .error e => .error (.overflow { e with position := some q })

/-- Modelled from the spec: `plus(other)` (section 4.2) — elementwise sum
over the union of occupied positions at the shared element width; fails if
the two matrices have different element width or shape. -/
def Matrix.plus (m1 m2 : Matrix) : Except MatrixError Matrix :=
  if m1.elementWidth = m2.elementWidth ∧ m1.rows = m2.rows ∧ m1.cols = m2.cols then
    match addEntries m1.elementWidth m1.policy m1.entries m2.entries
        (unionKeys m1.entries m2.entries) with
    | .ok es => .ok ⟨m1.rows, m1.cols, m1.elementWidth, m1.policy, es⟩
    | .error e => .error e
  else
    .error (.shapeMismatch m1.elementWidth m2.elementWidth
      (m1.rows, m1.cols) (m2.rows, m2.cols))

/-- Apply `multiply` by a scalar to every entry of an entry list; a
signalled overflow is tagged with the offending position. -/
def scaleEntries (w : Nat) (pol : OverflowPolicy) (k : Nat) :
    Entries → Except MatrixError Entries
  | [] => .ok []
  | e :: rest =>
    match FixedWidthInteger.multiply ⟨e.2, w, pol⟩ k with
    | .ok x =>
      match scaleEntries w pol k rest with
      | .ok es => .ok ((e.1, x.value) :: es)
      | .error err => .error err
    | .error err => .error (.overflow { err with position := some e.1 })

/-- Modelled from the spec: `scale(k)` (section 4.2) — elementwise
`multiply(entry, k)` for every occupied position. -/
def Matrix.scale (m : Matrix) (k : Nat) : Except MatrixError Matrix :=
  match scaleEntries m.elementWidth m.policy k m.entries with
  | .ok es => .ok ⟨m.rows, m.cols, m.elementWidth, m.policy, es⟩
  | .error e => .error e

/-- Modelled from the spec: `toDense()` (section 4.2) — a full rows×cols
grid with zeros at unoccupied positions; purely a materialization. -/
def Matrix.toDense (m : Matrix) : List (List Nat) :=
  (List.range m.rows).map fun i => (List.range m.cols).map fun j =>
    lookupEntry m.entries (i, j)

/-- Wrapping addition at width `w`. -/
def wrapAdd (w a b : Nat) : Nat := (a + b) % 2 ^ w

/-- Wrapping multiplication at width `w`. -/
def wrapMul (w a k : Nat) : Nat := (a * k) % 2 ^ w

/-- Modelled from the spec: dense elementwise sum — the underlying numeric
library's array addition wraps every element silently at the arrays' width. -/
def denseAdd (w : Nat) (A B : List (List Nat)) : List (List Nat) :=
  List.zipWith (List.zipWith (wrapAdd w)) A B

/-- Modelled from the spec: dense array-by-scalar product — every element is
multiplied and silently wrapped at the array's width. -/
def denseScale (w : Nat) (A : List (List Nat)) (k : Nat) : List (List Nat) :=
  A.map fun row => row.map fun x => wrapMul w x k

/-- Modelled from the spec: the underlying library's arithmetic error mode —
either the default silent mode or the raise-on-overflow configuration. -/
inductive ErrorMode where
  | ignore
  | raise
deriving DecidableEq

/-- Modelled from the spec: a scalar fixed-width multiplication under the
library's error mode — under `raise` a true product exceeding the
representable maximum fails; under the default it silently wraps. -/
def npScalarMultiply (mode : ErrorMode) (w a b : Nat) : Except OverflowError Nat :=
  if a * b ≤ 2 ^ w - 1 then
    .ok (a * b)
  else
    match mode with
    | .ignore => .ok ((a * b) % 2 ^ w)
    | .raise => .error ⟨none, a * b, 2 ^ w - 1⟩

/-- Modelled from the spec: vectorized array addition — the notebook
demonstrates that the raise-on-overflow configuration does not take effect
for array operations, so elements wrap silently regardless of the mode. -/
def npArrayAdd (mode : ErrorMode) (w : Nat) (A B : List (List Nat)) : List (List Nat) :=
  List.zipWith (List.zipWith (wrapAdd w)) A B

/-- Modelled from the spec: vectorized array-by-scalar multiplication — as
with array addition, the error mode has no effect and elements wrap
silently. -/
def npArrayScalarMultiply (mode : ErrorMode) (w : Nat) (A : List (List Nat))
    (k : Nat) : List (List Nat) :=
  A.map fun row => row.map fun x => wrapMul w x k

/-- Widen (or narrow) every stored entry of an entry list from width `w0`
to width `w1` via `cast`. -/
def castEntries (w0 w1 : Nat) (pol : OverflowPolicy) :
    Entries → Except OverflowError Entries
  | [] => .ok []
  | e :: rest =>
    match FixedWidthInteger.cast ⟨e.2, w0, pol⟩ w1 with
    | .ok x =>
      match castEntries w0 w1 pol rest with
      | .ok es => .ok ((e.1, x.value) :: es)
      | .error err => .error err
    | .error err => .error { err with position := some e.1 }

/-- Modelled from the spec: constructing a matrix with a wider declared
element width while the triplet values keep their own width — as in the
notebook's construction with an explicit larger dtype, duplicate triplets
are accumulated at the input values' width and the stored entries are only
then cast to the declared width. -/
def Matrix.fromTripletsDeclared (ts : List (Nat × Nat × Nat)) (shape : Nat × Nat)
    (inputWidth declaredWidth : Nat) (pol : OverflowPolicy) :
    Except OverflowError Matrix :=
  match accumTriplets inputWidth pol [] ts with
  | .ok es =>
    match castEntries inputWidth declaredWidth pol es with
    | .ok es2 => .ok ⟨shape.1, shape.2, declaredWidth, pol, es2⟩
    | .error e => .error e
  | .error e => .error e

/-- Extract the matrix from a successful construction, with a default for
the error case (used only to name concrete successful results). -/
def okOr {ε : Type} (x : Except ε Matrix) : Matrix :=
  match x with
  | .ok m => m
  | .error _ => ⟨0, 0, 0, .wrap, []⟩

/-- The notebook's master co-occurrence matrix `S` of the accumulation
example: triplets from rows [1,1,1,1,2,2,3,1,1,2], cols [0,1,2,3,0,2,1,0,1,2],
data [1,1,1,1,1,1,1,1,1,13] at width 8 under the wrap policy. -/
def notebookS : Matrix :=
  okOr (Matrix.fromTriplets
    [(1, 0, 1), (1, 1, 1), (1, 2, 1), (1, 3, 1), (2, 0, 1),
     (2, 2, 1), (3, 1, 1), (1, 0, 1), (1, 1, 1), (2, 2, 13)]
    (4, 4) 8 .wrap)

/-- The notebook's incoming-stream matrix `T`: triplets from rows [1,2,2,2],
cols [0,0,2,2], data [1,1,1,250] at width 8 under the wrap policy. -/
def notebookT : Matrix :=
  okOr (Matrix.fromTriplets
    [(1, 0, 1), (2, 0, 1), (2, 2, 1), (2, 2, 250)]
    (4, 4) 8 .wrap)

theorem twoPowPos (w : Nat) : 0 < 2 ^ w := Nat.pos_pow_of_pos w (by decide)

theorem add_wrap_eq (a b : FixedWidthInteger) (h : a.policy = .wrap) :
    FixedWidthInteger.add a b =
      .ok ⟨(a.value + b.value) % 2 ^ a.bitWidth, a.bitWidth, a.policy⟩ := by
  have hpos : 0 < 2 ^ a.bitWidth := twoPowPos a.bitWidth
  unfold FixedWidthInteger.add
  by_cases hle : a.value + b.value ≤ 2 ^ a.bitWidth - 1
  · have hmod : (a.value + b.value) % 2 ^ a.bitWidth = a.value + b.value :=
      Nat.mod_eq_of_lt (by omega)
    simp [hle, hmod]
  · simp [hle, h]

theorem add_signal_eq (a b : FixedWidthInteger) (h : a.policy = .signal)
    (hov : 2 ^ a.bitWidth ≤ a.value + b.value) :
    FixedWidthInteger.add a b =
      .error ⟨none, a.value + b.value, 2 ^ a.bitWidth - 1⟩ := by
  have hpos : 0 < 2 ^ a.bitWidth := twoPowPos a.bitWidth
  have hle : ¬ (a.value + b.value ≤ 2 ^ a.bitWidth - 1) := by omega
  unfold FixedWidthInteger.add
  simp [hle, h]

theorem multiply_wrap_eq (a : FixedWidthInteger) (k : Nat) (h : a.policy = .wrap) :
    FixedWidthInteger.multiply a k =
      .ok ⟨a.value * k % 2 ^ a.bitWidth, a.bitWidth, a.policy⟩ := by
  have hpos : 0 < 2 ^ a.bitWidth := twoPowPos a.bitWidth
  unfold FixedWidthInteger.multiply
  by_cases hle : a.value * k ≤ 2 ^ a.bitWidth - 1
  · have hmod : a.value * k % 2 ^ a.bitWidth = a.value * k :=
      Nat.mod_eq_of_lt (by omega)
    simp [hle, hmod]
  · simp [hle, h]

theorem cast_of_fits (a : FixedWidthInteger) (w : Nat) (h : a.value ≤ 2 ^ w - 1) :
    FixedWidthInteger.cast a w = .ok ⟨a.value, w, a.policy⟩ := by
  unfold FixedWidthInteger.cast
  simp [h]

theorem lookup_eq_zero_of_not_mem (es : Entries) (q : Nat × Nat)
    (h : q ∉ es.map Prod.fst) : lookupEntry es q = 0 := by
  induction es with
  | nil => rfl
  | cons e rest ih =>
    simp only [List.map_cons, List.mem_cons] at h
    push_neg at h
    have hne : ¬ e.1 = q := fun hq => h.1 hq.symm
    simp [lookupEntry, hne, ih h.2]

theorem lookup_map_keys (keys : List (Nat × Nat)) (f : (Nat × Nat) → Nat)
    (q : Nat × Nat) :
    lookupEntry (keys.map fun p => (p, f p)) q = if q ∈ keys then f q else 0 := by
  induction keys with
  | nil => simp [lookupEntry]
  | cons p rest ih =>
    by_cases hpq : p = q
    · subst hpq
      simp [lookupEntry]
    · have hqp : ¬ q = p := fun hq => hpq hq.symm
      simp [lookupEntry, hpq, hqp, ih, List.mem_cons]

theorem lookup_map_value (es : Entries) (f : Nat → Nat) (hf : f 0 = 0)
    (q : Nat × Nat) :
    lookupEntry (es.map fun e => (e.1, f e.2)) q = f (lookupEntry es q) := by
  induction es with
  | nil => simp [lookupEntry, hf]
  | cons e rest ih =>
    by_cases h : e.1 = q
    · simp [lookupEntry, h]
    · simp [lookupEntry, h, ih]

theorem mem_unionKeys (es1 es2 : Entries) (q : Nat × Nat) :
    q ∈ unionKeys es1 es2 ↔ q ∈ es1.map Prod.fst ∨ q ∈ es2.map Prod.fst := by
  simp only [unionKeys, List.mem_append, List.mem_filter, decide_eq_true_eq]
  tauto

theorem addEntries_wrap (w : Nat) (es1 es2 : Entries) (keys : List (Nat × Nat)) :
    addEntries w .wrap es1 es2 keys =
      .ok (keys.map fun q => (q, wrapAdd w (lookupEntry es1 q) (lookupEntry es2 q))) := by
  induction keys with
  | nil => rfl
  | cons q rest ih =>
    unfold addEntries
    rw [add_wrap_eq ⟨lookupEntry es1 q, w, .wrap⟩ ⟨lookupEntry es2 q, w, .wrap⟩ rfl, ih]
    rfl

theorem plus_wrap (m1 m2 : Matrix) (hw : m1.elementWidth = m2.elementWidth)
    (hr : m1.rows = m2.rows) (hc : m1.cols = m2.cols) (hp : m1.policy = .wrap) :
    Matrix.plus m1 m2 = .ok ⟨m1.rows, m1.cols, m1.elementWidth, m1.policy,
      (unionKeys m1.entries m2.entries).map fun q =>
        (q, wrapAdd m1.elementWidth (lookupEntry m1.entries q)
          (lookupEntry m2.entries q))⟩ := by
  unfold Matrix.plus
  rw [if_pos ⟨hw, hr, hc⟩, hp, addEntries_wrap]

theorem scaleEntries_wrap (w k : Nat) (es : Entries) :
    scaleEntries w .wrap k es =
      .ok (es.map fun e => (e.1, wrapMul w e.2 k)) := by
  induction es with
  | nil => rfl
  | cons e rest ih =>
    unfold scaleEntries
    rw [multiply_wrap_eq ⟨e.2, w, .wrap⟩ k rfl, ih]
    rfl

theorem scale_wrap (m : Matrix) (k : Nat) (hp : m.policy = .wrap) :
    Matrix.scale m k = .ok ⟨m.rows, m.cols, m.elementWidth, m.policy,
      m.entries.map fun e => (e.1, wrapMul m.elementWidth e.2 k)⟩ := by
  unfold Matrix.scale
  rw [hp, scaleEntries_wrap]

theorem zipWith_map_same {α β γ δ : Type} (f : β → γ → δ) (g : α → β) (h : α → γ)
    (l : List α) :
    List.zipWith f (l.map g) (l.map h) = l.map fun x => f (g x) (h x) := by
  induction l with
  | nil => rfl
  | cons x rest ih => simp [ih]

theorem lookup_plusEntries (w : Nat) (es1 es2 : Entries) (q : Nat × Nat) :
    lookupEntry ((unionKeys es1 es2).map fun p =>
        (p, wrapAdd w (lookupEntry es1 p) (lookupEntry es2 p))) q =
      wrapAdd w (lookupEntry es1 q) (lookupEntry es2 q) := by
  rw [lookup_map_keys]
  by_cases hmem : q ∈ unionKeys es1 es2
  · rw [if_pos hmem]
  · rw [if_neg hmem]
    rw [mem_unionKeys] at hmem
    push_neg at hmem
    rw [lookup_eq_zero_of_not_mem _ _ hmem.1, lookup_eq_zero_of_not_mem _ _ hmem.2]
    simp [wrapAdd]

theorem ofValue_wrap_le (v w : Nat) (r : FixedWidthInteger)
    (h : FixedWidthInteger.ofValue v w .wrap = .ok r) : r.value ≤ 2 ^ w - 1 := by
  have hpos := twoPowPos w
  unfold FixedWidthInteger.ofValue at h
  by_cases hle : v ≤ 2 ^ w - 1
  · rw [if_pos hle] at h
    injection h with h2
    rw [← h2]
    exact hle
  · rw [if_neg hle] at h
    injection h with h2
    rw [← h2]
    show v % 2 ^ w ≤ 2 ^ w - 1
    have := Nat.mod_lt v hpos
    omega

theorem add_wrap_ok_le (a b r : FixedWidthInteger) (hp : a.policy = .wrap)
    (h : FixedWidthInteger.add a b = .ok r) : r.value ≤ 2 ^ a.bitWidth - 1 := by
  have hpos := twoPowPos a.bitWidth
  rw [add_wrap_eq a b hp] at h
  injection h with h2
  rw [← h2]
  show (a.value + b.value) % 2 ^ a.bitWidth ≤ 2 ^ a.bitWidth - 1
  have := Nat.mod_lt (a.value + b.value) hpos
  omega

theorem multiply_wrap_ok_le (a : FixedWidthInteger) (k : Nat) (r : FixedWidthInteger)
    (hp : a.policy = .wrap)
    (h : FixedWidthInteger.multiply a k = .ok r) : r.value ≤ 2 ^ a.bitWidth - 1 := by
  have hpos := twoPowPos a.bitWidth
  rw [multiply_wrap_eq a k hp] at h
  injection h with h2
  rw [← h2]
  show a.value * k % 2 ^ a.bitWidth ≤ 2 ^ a.bitWidth - 1
  have := Nat.mod_lt (a.value * k) hpos
  omega

theorem cast_wrap_ok_le (a : FixedWidthInteger) (w : Nat) (r : FixedWidthInteger)
    (hp : a.policy = .wrap)
    (h : FixedWidthInteger.cast a w = .ok r) : r.value ≤ 2 ^ w - 1 := by
  have hpos := twoPowPos w
  unfold FixedWidthInteger.cast at h
  by_cases hle : a.value ≤ 2 ^ w - 1
  · rw [if_pos hle] at h
    injection h with h2
    rw [← h2]
    exact hle
  · rw [if_neg hle, hp] at h
    injection h with h2
    rw [← h2]
    show a.value % 2 ^ w ≤ 2 ^ w - 1
    have := Nat.mod_lt a.value hpos
    omega

theorem setEntry_pred (P : Nat → Prop) (es : Entries) (q : Nat × Nat) (v : Nat)
    (hes : ∀ e ∈ es, P e.2) (hv : P v) : ∀ e ∈ setEntry es q v, P e.2 := by
  induction es with
  | nil =>
    intro e he
    simp only [setEntry, List.mem_singleton] at he
    rw [he]
    exact hv
  | cons e0 rest ih =>
    intro e he
    unfold setEntry at he
    by_cases h0 : e0.1 = q
    · rw [if_pos h0] at he
      rcases List.mem_cons.mp he with h | h
      · rw [h]; exact hv
      · exact hes e (List.mem_cons_of_mem _ h)
    · rw [if_neg h0] at he
      rcases List.mem_cons.mp he with h | h
      · rw [h]; exact hes e0 (List.mem_cons_self _ _)
      · exact ih (fun x hx => hes x (List.mem_cons_of_mem _ hx)) e h

theorem accumTriplets_wrap_le (w : Nat) (ts : List (Nat × Nat × Nat)) :
    ∀ es : Entries, (∀ e ∈ es, e.2 ≤ 2 ^ w - 1) →
      ∀ es', accumTriplets w .wrap es ts = .ok es' →
        ∀ e ∈ es', e.2 ≤ 2 ^ w - 1 := by
  induction ts with
  | nil =>
    intro es hes es' h
    unfold accumTriplets at h
    injection h with h2
    rw [← h2]
    exact hes
  | cons t rest ih =>
    obtain ⟨r, c, v⟩ := t
    intro es hes es' h
    unfold accumTriplets at h
    rw [add_wrap_eq ⟨lookupEntry es (r, c), w, .wrap⟩ ⟨v, w, .wrap⟩ rfl] at h
    refine ih _ ?_ es' h
    refine setEntry_pred (fun x => x ≤ 2 ^ w - 1) es (r, c) _ hes ?_
    show (lookupEntry es (r, c) + v) % 2 ^ w ≤ 2 ^ w - 1
    have hpos := twoPowPos w
    have := Nat.mod_lt (lookupEntry es (r, c) + v) hpos
    omega

/-- C1: for every pair of FixedWidthInteger of the same bit width `w` under the
wrap policy, `add` returns `(a.value + b.value) mod 2^w`; in particular the
sparse elementwise sum stores this wrapped value at every shared occupied
position. -/
theorem C1_add_wraps_modulo (w : Nat) (a b : FixedWidthInteger)
    (ha : a.bitWidth = w) (hb : b.bitWidth = w) (hpa : a.policy = .wrap) :
    (∃ r, FixedWidthInteger.add a b = .ok r ∧
        r.value = (a.value + b.value) % 2 ^ w) ∧
    (∀ m1 m2 m : Matrix, m1.policy = .wrap → Matrix.plus m1 m2 = .ok m →
      ∀ q : Nat × Nat, q ∈ m1.entries.map Prod.fst → q ∈ m2.entries.map Prod.fst →
        lookupEntry m.entries q =
          (lookupEntry m1.entries q + lookupEntry m2.entries q) % 2 ^ m1.elementWidth) := by
  constructor
  · refine ⟨_, add_wrap_eq a b hpa, ?_⟩
    show (a.value + b.value) % 2 ^ a.bitWidth = (a.value + b.value) % 2 ^ w
    rw [ha]
  · intro m1 m2 m hp hplus q hq1 hq2
    by_cases hcond : m1.elementWidth = m2.elementWidth ∧ m1.rows = m2.rows ∧
        m1.cols = m2.cols
    · rw [plus_wrap m1 m2 hcond.1 hcond.2.1 hcond.2.2 hp] at hplus
      injection hplus with h2
      rw [← h2]
      show lookupEntry ((unionKeys m1.entries m2.entries).map fun q =>
        (q, wrapAdd m1.elementWidth (lookupEntry m1.entries q)
          (lookupEntry m2.entries q))) q = _
      rw [lookup_plusEntries]
      rfl
    · unfold Matrix.plus at hplus
      rw [if_neg hcond] at hplus
      exact absurd hplus (by simp)

/-- C2: under the signal policy an overflowing `add` fails with an
`OverflowError` carrying the true (non-wrapped) sum and the representable
maximum; for Scenario 1's inputs at width 8 the construction fails with
position (2,2), true value 256 and maximum 255. -/
theorem C2_signal_fails (w : Nat) (a b : FixedWidthInteger)
    (ha : a.bitWidth = w) (hpa : a.policy = .signal)
    (hov : 2 ^ w ≤ a.value + b.value) :
    (∃ e, FixedWidthInteger.add a b = .error e ∧
        e.trueValue = a.value + b.value ∧ e.maxValue = 2 ^ w - 1) ∧
    Matrix.fromTriplets [(2, 2, 1), (2, 2, 255)] (3, 3) 8 .signal =
      .error ⟨some (2, 2), 256, 255⟩ := by
  constructor
  · refine ⟨_, add_signal_eq a b hpa (by rw [ha]; exact hov), rfl, ?_⟩
    show 2 ^ a.bitWidth - 1 = 2 ^ w - 1
    rw [ha]
  · rfl

/-- C3: `fromTriplets` sums duplicate coordinate triplets at the declared
element width using `add` sequentially; at width 8 under the wrap policy the
triplets [(2,2,1),(2,2,255)] accumulate to 0 at position (2,2), and in
general two duplicate triplets accumulate to their wrapped sum. -/
theorem C3_fromTriplets_accumulates :
    (∃ m, Matrix.fromTriplets [(2, 2, 1), (2, 2, 255)] (3, 3) 8 .wrap = .ok m ∧
        lookupEntry m.entries (2, 2) = 0) ∧
    (∀ r c v1 v2 w : Nat, ∀ shape : Nat × Nat,
      ∃ m, Matrix.fromTriplets [(r, c, v1), (r, c, v2)] shape w .wrap = .ok m ∧
        lookupEntry m.entries (r, c) = (v1 + v2) % 2 ^ w) := by
  constructor
  · exact ⟨okOr (Matrix.fromTriplets [(2, 2, 1), (2, 2, 255)] (3, 3) 8 .wrap),
      rfl, rfl⟩
  · intro r c v1 v2 w shape
    have h1 := add_wrap_eq ⟨lookupEntry [] (r, c), w, .wrap⟩ ⟨v1, w, .wrap⟩ rfl
    have hset1 : setEntry [] (r, c) ((lookupEntry [] (r, c) + v1) % 2 ^ w) =
        [((r, c), (0 + v1) % 2 ^ w)] := rfl
    have h2 := add_wrap_eq ⟨lookupEntry [((r, c), (0 + v1) % 2 ^ w)] (r, c), w, .wrap⟩
      ⟨v2, w, .wrap⟩ rfl
    refine ⟨⟨shape.1, shape.2, w, .wrap,
      [((r, c), ((0 + v1) % 2 ^ w + v2) % 2 ^ w)]⟩, ?_, ?_⟩
    · unfold Matrix.fromTriplets accumTriplets
      rw [h1]
      show (match accumTriplets w .wrap
          (setEntry [] (r, c) ((lookupEntry [] (r, c) + v1) % 2 ^ w)) [(r, c, v2)] with
        | .ok es => Except.ok (⟨shape.1, shape.2, w, .wrap, es⟩ : Matrix)
        | .error e => .error e) = _
      rw [hset1]
      unfold accumTriplets
      rw [h2]
      show Except.ok (⟨shape.1, shape.2, w, .wrap,
        setEntry [((r, c), (0 + v1) % 2 ^ w)] (r, c)
          ((lookupEntry [((r, c), (0 + v1) % 2 ^ w)] (r, c) + v2) % 2 ^ w)⟩ : Matrix) = _
      simp [setEntry, lookupEntry]
    · simp [lookupEntry, Nat.mod_add_mod]

/-- C4: with the error mode set to raise on overflow, an overflowing scalar
fixed-width multiplication fails, but vectorized array addition and
array-by-scalar multiplication still return silently wrapped results and are
unaffected by the mode. -/
theorem C4_raise_mode_scalar_only :
    npScalarMultiply .raise 8 255 3 = .error ⟨none, 765, 255⟩ ∧
    (∀ mode : ErrorMode, ∀ w : Nat, ∀ A B : List (List Nat),
        npArrayAdd mode w A B = npArrayAdd .ignore w A B) ∧
    (∀ mode : ErrorMode, ∀ w k : Nat, ∀ A : List (List Nat),
        npArrayScalarMultiply mode w A k = npArrayScalarMultiply .ignore w A k) ∧
    npArrayAdd .raise 8 notebookS.toDense notebookT.toDense =
      denseAdd 8 notebookS.toDense notebookT.toDense ∧
    ((npArrayAdd .raise 8 notebookS.toDense notebookT.toDense).getD 2 []).getD 2 0
      = 9 ∧
    ((npArrayScalarMultiply .raise 8 notebookS.toDense 20).getD 2 []).getD 2 0
      = 24 := by
  exact ⟨rfl, fun mode w A B => rfl, fun mode w k A => rfl, rfl, rfl, rfl⟩

/-- C5: `scale(k)` applies `multiply(entry, k)` at the matrix's element width
to every occupied position; for the notebook's width-8 wrap matrix with entry
14 at (2,2), `scale 20` produces 24 (280 mod 256), not 280. -/
theorem C5_scale_multiplies (k : Nat) :
    (∀ m : Matrix, m.policy = .wrap → ∀ m2, Matrix.scale m k = .ok m2 →
        ∀ q : Nat × Nat, lookupEntry m2.entries q =
          lookupEntry m.entries q * k % 2 ^ m.elementWidth) ∧
    (∃ m2, Matrix.scale notebookS 20 = .ok m2 ∧
        lookupEntry m2.entries (2, 2) = 24 ∧ lookupEntry m2.entries (2, 2) ≠ 280) := by
  constructor
  · intro m hp m2 h q
    rw [scale_wrap m k hp] at h
    injection h with h2
    rw [← h2]
    show lookupEntry (m.entries.map fun e =>
      (e.1, wrapMul m.elementWidth e.2 k)) q = _
    rw [lookup_map_value m.entries (fun x => wrapMul m.elementWidth x k)
      (by simp [wrapMul]) q]
    rfl
  · exact ⟨okOr (Matrix.scale notebookS 20), rfl, rfl, by decide⟩

/-- C6: widening cast never loses information — for every FixedWidthInteger
respecting its width invariant and any new width at least as large, `cast`
copies the numeric value verbatim; casting Scenario 1's triplet values up to
width 16 before construction yields an accumulated 256 at (2,2). -/
theorem C6_cast_widening (a : FixedWidthInteger) (w2 : Nat)
    (hinv : a.value ≤ 2 ^ a.bitWidth - 1) (hw : a.bitWidth ≤ w2) :
    FixedWidthInteger.cast a w2 = .ok ⟨a.value, w2, a.policy⟩ ∧
    FixedWidthInteger.cast ⟨1, 8, .wrap⟩ 16 = .ok ⟨1, 16, .wrap⟩ ∧
    FixedWidthInteger.cast ⟨255, 8, .wrap⟩ 16 = .ok ⟨255, 16, .wrap⟩ ∧
    (∃ m, Matrix.fromTriplets [(2, 2, 1), (2, 2, 255)] (3, 3) 16 .wrap = .ok m ∧
        lookupEntry m.entries (2, 2) = 256) := by
  refine ⟨?_, rfl, rfl,
    ⟨okOr (Matrix.fromTriplets [(2, 2, 1), (2, 2, 255)] (3, 3) 16 .wrap), rfl, rfl⟩⟩
  apply cast_of_fits
  have h1 : 2 ^ a.bitWidth ≤ 2 ^ w2 := Nat.pow_le_pow_right (by decide) hw
  omega

/-- C7: under the wrap policy, every FixedWidthInteger produced by
construction, `add`, `multiply` or `cast` satisfies the width invariant
`value ≤ 2^bitWidth - 1`, and every value stored in a matrix after
`fromTriplets`, `plus` or `scale` respects it at the declared element width. -/
theorem C7_wrap_invariant :
    (∀ v w : Nat, ∀ r, FixedWidthInteger.ofValue v w .wrap = .ok r →
        r.value ≤ 2 ^ w - 1) ∧
    (∀ a b r, a.policy = .wrap → FixedWidthInteger.add a b = .ok r →
        r.value ≤ 2 ^ a.bitWidth - 1) ∧
    (∀ a, ∀ k : Nat, ∀ r, a.policy = .wrap → FixedWidthInteger.multiply a k = .ok r →
        r.value ≤ 2 ^ a.bitWidth - 1) ∧
    (∀ a, ∀ w2 : Nat, ∀ r, a.policy = .wrap → FixedWidthInteger.cast a w2 = .ok r →
        r.value ≤ 2 ^ w2 - 1) ∧
    (∀ ts : List (Nat × Nat × Nat), ∀ shape : Nat × Nat, ∀ w : Nat, ∀ m,
        Matrix.fromTriplets ts shape w .wrap = .ok m →
        ∀ e ∈ m.entries, e.2 ≤ 2 ^ w - 1) ∧
    (∀ m1 m2 m : Matrix, m1.policy = .wrap → Matrix.plus m1 m2 = .ok m →
        ∀ e ∈ m.entries, e.2 ≤ 2 ^ m1.elementWidth - 1) ∧
    (∀ m : Matrix, ∀ k : Nat, ∀ m2, m.policy = .wrap → Matrix.scale m k = .ok m2 →
        ∀ e ∈ m2.entries, e.2 ≤ 2 ^ m.elementWidth - 1) := by
  refine ⟨?_, ?_, ?_, ?_, ?_, ?_, ?_⟩
  · intro v w r h
    exact ofValue_wrap_le v w r h
  · intro a b r hp h
    exact add_wrap_ok_le a b r hp h
  · intro a k r hp h
    exact multiply_wrap_ok_le a k r hp h
  · intro a w2 r hp h
    exact cast_wrap_ok_le a w2 r hp h
  · intro ts shape w m h
    unfold Matrix.fromTriplets at h
    cases haccum : accumTriplets w .wrap [] ts with
    | ok es =>
      rw [haccum] at h
      injection h with h2
      rw [← h2]
      exact accumTriplets_wrap_le w ts [] (by intro e he; cases he) es haccum
    | error e =>
      rw [haccum] at h
      exact absurd h (by simp)
  · intro m1 m2 m hp h
    by_cases hcond : m1.elementWidth = m2.elementWidth ∧ m1.rows = m2.rows ∧
        m1.cols = m2.cols
    · rw [plus_wrap m1 m2 hcond.1 hcond.2.1 hcond.2.2 hp] at h
      injection h with h2
      rw [← h2]
      intro e he
      simp only [List.mem_map] at he
      obtain ⟨q, hq, he2⟩ := he
      rw [← he2]
      show (lookupEntry m1.entries q + lookupEntry m2.entries q) %
        2 ^ m1.elementWidth ≤ 2 ^ m1.elementWidth - 1
      have hpos := twoPowPos m1.elementWidth
      have := Nat.mod_lt (lookupEntry m1.entries q + lookupEntry m2.entries q) hpos
      omega
    · unfold Matrix.plus at h
      rw [if_neg hcond] at h
      exact absurd h (by simp)
  · intro m k m2 hp h
    rw [scale_wrap m k hp] at h
    injection h with h2
    rw [← h2]
    intro e he
    simp only [List.mem_map] at he
    obtain ⟨e0, he0, he2⟩ := he
    rw [← he2]
    show e0.2 * k % 2 ^ m.elementWidth ≤ 2 ^ m.elementWidth - 1
    have hpos := twoPowPos m.elementWidth
    have := Nat.mod_lt (e0.2 * k) hpos
    omega

/-- C8: `plus` fails with a shape-mismatch error whenever the operands have
different element width or different shape; when widths and shapes agree it
returns the elementwise (wrapped) sum over the union of the occupied
positions of both operands. -/
theorem C8_plus_shape_check (m1 m2 : Matrix) :
    (¬ (m1.elementWidth = m2.elementWidth ∧ m1.rows = m2.rows ∧ m1.cols = m2.cols) →
      Matrix.plus m1 m2 = .error (.shapeMismatch m1.elementWidth m2.elementWidth
        (m1.rows, m1.cols) (m2.rows, m2.cols))) ∧
    (m1.elementWidth = m2.elementWidth → m1.rows = m2.rows → m1.cols = m2.cols →
      m1.policy = .wrap →
      Matrix.plus m1 m2 = .ok ⟨m1.rows, m1.cols, m1.elementWidth, m1.policy,
        (unionKeys m1.entries m2.entries).map fun q =>
          (q, wrapAdd m1.elementWidth (lookupEntry m1.entries q)
            (lookupEntry m2.entries q))⟩) := by
  constructor
  · intro hcond
    unfold Matrix.plus
    rw [if_neg hcond]
  · intro hw hr hc hp
    exact plus_wrap m1 m2 hw hr hc hp

/-- C9: declaring a wider element width at construction without first casting
the input values does not prevent accumulation overflow — the width-8 inputs
[(2,2,1),(2,2,255)] built with a declared 16-bit element type still yield 0
at (2,2), not 256. -/
theorem C9_declared_width_still_wraps :
    ∃ m, Matrix.fromTripletsDeclared [(2, 2, 1), (2, 2, 255)] (3, 3) 8 16 .wrap
        = .ok m ∧ m.elementWidth = 16 ∧ lookupEntry m.entries (2, 2) = 0 ∧
        lookupEntry m.entries (2, 2) ≠ 256 := by
  exact ⟨okOr (Matrix.fromTripletsDeclared [(2, 2, 1), (2, 2, 255)] (3, 3) 8 16 .wrap),
    rfl, rfl, rfl, by decide⟩

/-- C10: under the wrap policy the sparse and dense paths agree — for
matrices of equal width and shape, `toDense` of the sparse elementwise sum
equals the elementwise sum of the dense materializations, and `toDense` of
the sparse scalar product equals the scalar product of the dense
materialization. -/
theorem C10_sparse_dense_agree (m1 m2 : Matrix)
    (hw : m1.elementWidth = m2.elementWidth) (hr : m1.rows = m2.rows)
    (hc : m1.cols = m2.cols) (hp : m1.policy = .wrap) :
    (∀ m, Matrix.plus m1 m2 = .ok m →
        m.toDense = denseAdd m1.elementWidth m1.toDense m2.toDense) ∧
    (∀ k : Nat, ∀ ms, Matrix.scale m1 k = .ok ms →
        ms.toDense = denseScale m1.elementWidth m1.toDense k) := by
  constructor
  · intro m h
    rw [plus_wrap m1 m2 hw hr hc hp] at h
    injection h with h2
    rw [← h2]
    show (List.range m1.rows).map (fun i => (List.range m1.cols).map fun j =>
        lookupEntry ((unionKeys m1.entries m2.entries).map fun q =>
          (q, wrapAdd m1.elementWidth (lookupEntry m1.entries q)
            (lookupEntry m2.entries q))) (i, j)) =
      denseAdd m1.elementWidth m1.toDense m2.toDense
    unfold denseAdd Matrix.toDense
    rw [← hr, ← hc, zipWith_map_same]
    apply List.map_congr_left
    intro i hi
    rw [zipWith_map_same]
    apply List.map_congr_left
    intro j hj
    rw [lookup_plusEntries]
  · intro k ms h
    rw [scale_wrap m1 k hp] at h
    injection h with h2
    rw [← h2]
    show (List.range m1.rows).map (fun i => (List.range m1.cols).map fun j =>
        lookupEntry (m1.entries.map fun e =>
          (e.1, wrapMul m1.elementWidth e.2 k)) (i, j)) =
      denseScale m1.elementWidth m1.toDense k
    unfold denseScale Matrix.toDense
    rw [List.map_map]
    apply List.map_congr_left
    intro i hi
    simp only [Function.comp]
    rw [List.map_map]
    apply List.map_congr_left
    intro j hj
    simp only [Function.comp]
    exact lookup_map_value m1.entries (fun x => wrapMul m1.elementWidth x k)
      (by simp [wrapMul]) (i, j)

/-- Witness for C1 at the notebook's accumulation example: position (2,2)
holds (14 + 251) mod 256. -/
theorem C1_witness :
    lookupEntry (okOr (Matrix.plus notebookS notebookT)).entries (2, 2) =
      (lookupEntry notebookS.entries (2, 2) +
        lookupEntry notebookT.entries (2, 2)) % 2 ^ 8 :=
  (C1_add_wraps_modulo 8 ⟨1, 8, .wrap⟩ ⟨255, 8, .wrap⟩ rfl rfl rfl).2
    notebookS notebookT (okOr (Matrix.plus notebookS notebookT)) rfl rfl
    (2, 2) (by decide) (by decide)

/-- Witness for C2: Scenario 1's triplets at width 8 under the signal policy
fail with position (2,2), true value 256 and maximum 255. -/
theorem C2_witness :
    Matrix.fromTriplets [(2, 2, 1), (2, 2, 255)] (3, 3) 8 .signal =
      .error ⟨some (2, 2), 256, 255⟩ :=
  (C2_signal_fails 8 ⟨1, 8, .signal⟩ ⟨255, 8, .signal⟩ rfl rfl (by decide)).2

/-- Witness for C5: scaling the notebook matrix by 20 wraps position (2,2)
to 14 * 20 mod 256. -/
theorem C5_witness :
    lookupEntry (okOr (Matrix.scale notebookS 20)).entries (2, 2) =
      lookupEntry notebookS.entries (2, 2) * 20 % 2 ^ 8 :=
  (C5_scale_multiplies 20).1 notebookS rfl (okOr (Matrix.scale notebookS 20))
    rfl (2, 2)

/-- Witness for C6: widening 255 from width 8 to width 16 keeps the value. -/
theorem C6_witness :
    FixedWidthInteger.cast ⟨255, 8, .wrap⟩ 16 = .ok ⟨255, 16, .wrap⟩ :=
  (C6_cast_widening ⟨255, 8, .wrap⟩ 16 (by decide) (by decide)).1

/-- Witness for C7: the wrapped sum 255 + 255 at width 8 respects the
invariant. -/
theorem C7_witness :
    (⟨254, 8, OverflowPolicy.wrap⟩ : FixedWidthInteger).value ≤ 2 ^ 8 - 1 :=
  C7_wrap_invariant.2.1 ⟨255, 8, .wrap⟩ ⟨255, 8, .wrap⟩ ⟨254, 8, .wrap⟩ rfl rfl

/-- Witness for C8: adding a 2×2 matrix to a 3×2 matrix fails with a shape
mismatch, and the notebook's equally-shaped matrices add successfully. -/
theorem C8_witness :
    Matrix.plus ⟨2, 2, 8, .wrap, []⟩ ⟨3, 2, 8, .wrap, []⟩ =
      .error (.shapeMismatch 8 8 (2, 2) (3, 2)) ∧
    Matrix.plus notebookS notebookT = .ok (okOr (Matrix.plus notebookS notebookT)) :=
  ⟨(C8_plus_shape_check ⟨2, 2, 8, .wrap, []⟩ ⟨3, 2, 8, .wrap, []⟩).1 (by decide),
    (C8_plus_shape_check notebookS notebookT).2 rfl rfl rfl rfl⟩

/-- Witness for C10: the sparse and dense paths agree on the notebook's sum
and scaling examples. -/
theorem C10_witness :
    (okOr (Matrix.plus notebookS notebookT)).toDense =
      denseAdd 8 notebookS.toDense notebookT.toDense ∧
    (okOr (Matrix.scale notebookS 20)).toDense =
      denseScale 8 notebookS.toDense 20 :=
  ⟨(C10_sparse_dense_agree notebookS notebookT rfl rfl rfl rfl).1
      (okOr (Matrix.plus notebookS notebookT)) rfl,
    (C10_sparse_dense_agree notebookS notebookT rfl rfl rfl rfl).2 20
      (okOr (Matrix.scale notebookS 20)) rfl⟩

end OverflowDemo
